import Mathlib

/-!
# Verification of the Discord media download pipeline

A shallow embedding of `download_discord_media.py`: the date-window
resolver, the filename deriver (SHA-256 based), the media classifier,
the SQLite-backed manifest, and the per-attachment ingestion driver,
together with proofs of the specification's claims about them.

Modelling conventions:
* UTC instants are microseconds since the Unix epoch, as `Int`
  (Python `datetime` has microsecond resolution).
* Python strings are Lean `String`s; `str.lower()` is modelled on the
  ASCII fragment (all strings the program compares are ASCII).
* The SQLite table is a `List DownloadRecord`; `INSERT OR IGNORE` on the
  primary key is an append guarded by a key-presence check, and every
  modelled operation is total (the Python code raises no manifest errors).
* The filesystem and the network are environment parameters of the
  driver: the download directory is the list of file names present, and
  each attachment carries a `saveOk` flag saying whether fetching its
  bytes would succeed (`att.save` raising is `saveOk = false`).
-/

namespace DiscordMedia

/-! ## ASCII lower-casing (model of Python `str.lower()` on ASCII) -/

/-- ASCII lower-casing of one character, as Python `str.lower()` acts on
the ASCII letters; every other character is left unchanged. -/
def lowerChar (c : Char) : Char :=
  match c with
  | 'A' => 'a' | 'B' => 'b' | 'C' => 'c' | 'D' => 'd' | 'E' => 'e'
  | 'F' => 'f' | 'G' => 'g' | 'H' => 'h' | 'I' => 'i' | 'J' => 'j'
  | 'K' => 'k' | 'L' => 'l' | 'M' => 'm' | 'N' => 'n' | 'O' => 'o'
  | 'P' => 'p' | 'Q' => 'q' | 'R' => 'r' | 'S' => 's' | 'T' => 't'
  | 'U' => 'u' | 'V' => 'v' | 'W' => 'w' | 'X' => 'x' | 'Y' => 'y'
  | 'Z' => 'z'
  | c => c

/-- Python `s.lower()` on an ASCII string. -/
def pyLower (s : String) : String := ⟨s.data.map lowerChar⟩

/-- Python `s.startswith(pat)`: `pat`'s characters lead `s`'s. -/
def strStartsWith (s pat : String) : Bool := pat.data.isPrefixOf s.data

/-! ## `pathlib.PurePosixPath` name and suffix -/

/-- Prepend a character to the first part of a part list. -/
def consPart (c : Char) : List (List Char) → List (List Char)
  | [] => [[c]]
  | p :: ps => (c :: p) :: ps

/-- Split a character list at every occurrence of `sep` (the separator is
dropped); `splitChar sep []` is `[[]]`, matching Python `"".split(sep)`. -/
def splitChar (sep : Char) : List Char → List (List Char)
  | [] => [[]]
  | c :: cs =>
    if c = sep then [] :: splitChar sep cs else consPart c (splitChar sep cs)

/-- `PurePosixPath(s).name` as a character list: the last component after
splitting on `/`, with empty and `"."` components dropped (pathlib drops
both when parsing); `""` when no component remains. -/
def posixNameChars (s : String) : List Char :=
  (((splitChar '/' s.data).filter
      (fun p => p ≠ [] ∧ p ≠ ['.'])).getLast?).getD []

/-- Index of the last `'.'` in a character list, if any
(Python `str.rfind('.')`). -/
def lastDotIdx : List Char → Option Nat
  | [] => none
  | c :: cs =>
    match lastDotIdx cs with
    | some i => some (i + 1)
    | none => if c = '.' then some 0 else none

/-- `PurePosixPath(s).suffix`: the final component's extension beginning
with the last dot, empty when the last dot is at position 0 (dot-files)
or at the very end, per CPython's `pathlib.PurePath.suffix`. -/
def pySuffix (s : String) : String :=
  let name := posixNameChars s
  match lastDotIdx name with
  | some i => if 0 < i ∧ i < name.length - 1 then ⟨name.drop i⟩ else ""
  | none => ""

/-! ## SHA-256 over `Nat` (bytes are `Nat < 256`, words are `Nat < 2^32`) -/

/-- 32-bit right rotation. -/
def rotr (n x : Nat) : Nat :=
  ((x >>> n) ||| (x <<< (32 - n))) % 4294967296

/-- The 64 SHA-256 round constants (FIPS 180-4), written in decimal. -/
def shaK : List Nat := [
  1116352408, 1899447441, 3049323471, 3921009573, 961987163,
  1508970993, 2453635748, 2870763221, 3624381080, 310598401,
  607225278, 1426881987, 1925078388, 2162078206, 2614888103,
  3248222580, 3835390401, 4022224774, 264347078, 604807628,
  770255983, 1249150122, 1555081692, 1996064986, 2554220882,
  2821834349, 2952996808, 3210313671, 3336571891, 3584528711,
  113926993, 338241895, 666307205, 773529912, 1294757372,
  1396182291, 1695183700, 1986661051, 2177026350, 2456956037,
  2730485921, 2820302411, 3259730800, 3345764771, 3516065817,
  3600352804, 4094571909, 275423344, 430227734, 506948616,
  659060556, 883997877, 958139571, 1322822218, 1537002063,
  1747873779, 1955562222, 2024104815, 2227730452, 2361852424,
  2428436474, 2756734187, 3204031479, 3329325298]

/-- SHA-256 working state: the eight 32-bit hash registers. -/
structure Hash8 where
  a : Nat
  b : Nat
  c : Nat
  d : Nat
  e : Nat
  f : Nat
  g : Nat
  h : Nat

/-- The SHA-256 initial hash value (FIPS 180-4), written in decimal. -/
def shaInit : Hash8 :=
  ⟨1779033703, 3144134277, 1013904242, 2773480762,
   1359893119, 2600822924, 528734635, 1541459225⟩

/-- One SHA-256 compression round; `kw` is `K[i] + W[i]` pre-added. -/
def shaRound (kw : Nat) (s : Hash8) : Hash8 :=
  let S1 := (rotr 6 s.e) ^^^ (rotr 11 s.e) ^^^ (rotr 25 s.e)
  let ch := (s.e &&& s.f) ^^^ ((s.e ^^^ 4294967295) &&& s.g)
  let t1 := (s.h + S1 + ch + kw) % 4294967296
  let S0 := (rotr 2 s.a) ^^^ (rotr 13 s.a) ^^^ (rotr 22 s.a)
  let mj := (s.a &&& s.b) ^^^ (s.a &&& s.c) ^^^ (s.b &&& s.c)
  let t2 := (S0 + mj) % 4294967296
  ⟨(t1 + t2) % 4294967296, s.a, s.b, s.c,
   (s.d + t1) % 4294967296, s.e, s.f, s.g⟩

/-- Extend a 16-word message schedule by `n` further words. -/
def extendSchedule : Nat → List Nat → List Nat
  | 0, ws => ws
  | n + 1, ws =>
    let i := ws.length
    let x15 := ws.getD (i - 15) 0
    let x2 := ws.getD (i - 2) 0
    let s0 := (rotr 7 x15) ^^^ (rotr 18 x15) ^^^ (x15 >>> 3)
    let s1 := (rotr 17 x2) ^^^ (rotr 19 x2) ^^^ (x2 >>> 10)
    let nw := (ws.getD (i - 16) 0 + s0 + ws.getD (i - 7) 0 + s1) % 4294967296
    extendSchedule n (ws ++ [nw])

/-- Big-endian 32-bit words from a 64-byte block. -/
def blockWords : List Nat → List Nat
  | b0 :: b1 :: b2 :: b3 :: rest =>
    (b0 <<< 24 ||| b1 <<< 16 ||| b2 <<< 8 ||| b3) :: blockWords rest
  | _ => []

/-- Compress one 64-byte block into the running hash state. -/
def compressBlock (st : Hash8) (block : List Nat) : Hash8 :=
  let ws := extendSchedule 48 (blockWords block)
  let r := (ws.zip shaK).foldl (fun s wk => shaRound ((wk.1 + wk.2) % 4294967296) s) st
  ⟨(st.a + r.a) % 4294967296, (st.b + r.b) % 4294967296,
   (st.c + r.c) % 4294967296, (st.d + r.d) % 4294967296,
   (st.e + r.e) % 4294967296, (st.f + r.f) % 4294967296,
   (st.g + r.g) % 4294967296, (st.h + r.h) % 4294967296⟩

/-- Split a byte list into 64-byte blocks (fuel-based structural
recursion so the kernel can evaluate it; one unit of fuel per element
is more than one per block). -/
def toBlocksAux : Nat → List Nat → List (List Nat)
  | 0, _ => []
  | _, [] => []
  | fuel + 1, bs => bs.take 64 :: toBlocksAux fuel (bs.drop 64)

/-- Split a byte list into 64-byte blocks. -/
def toBlocks (bs : List Nat) : List (List Nat) :=
  toBlocksAux bs.length bs

/-- SHA-256 padding: append `0x80`, zeros to 56 mod 64, then the bit
length as 8 big-endian bytes. -/
def shaPad (msg : List Nat) : List Nat :=
  let len := msg.length
  let zeros := List.replicate ((119 - len % 64) % 64) 0
  let bitLen := 8 * len
  msg ++ 0x80 :: zeros ++
    [(bitLen >>> 56) % 256, (bitLen >>> 48) % 256, (bitLen >>> 40) % 256,
     (bitLen >>> 32) % 256, (bitLen >>> 24) % 256, (bitLen >>> 16) % 256,
     (bitLen >>> 8) % 256, bitLen % 256]

/-- The four big-endian bytes of a 32-bit word. -/
def wordBytes (w : Nat) : List Nat :=
  [(w >>> 24) % 256, (w >>> 16) % 256, (w >>> 8) % 256, w % 256]

/-- SHA-256 digest of a byte message, as its 32 digest bytes. -/
def sha256Bytes (msg : List Nat) : List Nat :=
  let st := (toBlocks (shaPad msg)).foldl compressBlock shaInit
  wordBytes st.a ++ wordBytes st.b ++ wordBytes st.c ++ wordBytes st.d ++
    wordBytes st.e ++ wordBytes st.f ++ wordBytes st.g ++ wordBytes st.h

/-- Lower-case hexadecimal digit for a value below 16. -/
def hexDigitChar (n : Nat) : Char :=
  if n < 10 then Char.ofNat (48 + n) else Char.ofNat (87 + n)

/-- Lower-case hex rendering of a byte list, two characters per byte. -/
def bytesToHexChars (bs : List Nat) : List Char :=
  bs.flatMap (fun b => [hexDigitChar (b / 16), hexDigitChar (b % 16)])

/-- UTF-8 encoding of one character, as byte values. -/
def utf8Bytes (c : Char) : List Nat :=
  let n := c.toNat
  if n < 0x80 then [n]
  else if n < 0x800 then
    [0xc0 ||| (n >>> 6), 0x80 ||| (n &&& 0x3f)]
  else if n < 0x10000 then
    [0xe0 ||| (n >>> 12), 0x80 ||| ((n >>> 6) &&& 0x3f), 0x80 ||| (n &&& 0x3f)]
  else
    [0xf0 ||| (n >>> 18), 0x80 ||| ((n >>> 12) &&& 0x3f),
     0x80 ||| ((n >>> 6) &&& 0x3f), 0x80 ||| (n &&& 0x3f)]

/-- UTF-8 bytes of a string (Python `s.encode("utf-8")`). -/
def strBytes (s : String) : List Nat := s.data.flatMap utf8Bytes

/-- `hashlib.sha256(s.encode("utf-8")).hexdigest()` as a character list. -/
def sha256HexChars (s : String) : List Char :=
  bytesToHexChars (sha256Bytes (strBytes s))

/-! ## Calendar arithmetic (proleptic Gregorian, as Python `datetime`) -/

/-- Gregorian leap-year test. -/
def isLeap (y : Nat) : Bool := (y % 4 = 0 && y % 100 != 0) || y % 400 = 0

/-- Days in a month of the proleptic Gregorian calendar
(0 for an out-of-range month, which no accepted input produces). -/
def daysInMonth (y m : Nat) : Nat :=
  match m with
  | 1 => 31 | 2 => if isLeap y then 29 else 28 | 3 => 31 | 4 => 30
  | 5 => 31 | 6 => 30 | 7 => 31 | 8 => 31
  | 9 => 30 | 10 => 31 | 11 => 30 | 12 => 31
  | _ => 0

/-- Days from the epoch 1970-01-01 to the Gregorian date `y-m-d`
(Hinnant's civil-from-days inverse; valid for `y ≥ 1`). -/
def daysFromCivil (y m d : Nat) : Int :=
  let yy := if m ≤ 2 then y - 1 else y
  let era := yy / 400
  let yoe := yy % 400
  let mp := (m + 9) % 12
  let doy := (153 * mp + 2) / 5 + d - 1
  let doe := yoe * 365 + yoe / 4 - yoe / 100 + doy
  (era * 146097 + doe : Int) - 719468

/-- Microseconds since the epoch of UTC midnight of `y-m-d`. -/
def dateMicros (y m d : Nat) : Int := daysFromCivil y m d * 86400000000

/-- Microseconds since the epoch of `y-m-d h:mi:s.us` UTC. -/
def timeMicros (y m d h mi s us : Nat) : Int :=
  dateMicros y m d + ((h * 3600 + mi * 60 + s) * 1000000 + us : Nat)

/-- Gregorian date from a day count since the epoch (Hinnant). -/
def civilFromDays (z : Int) : Nat × Nat × Nat :=
  let zz := (z + 719468).toNat
  let era := zz / 146097
  let doe := zz % 146097
  let yoe := (doe - doe / 1460 + doe / 36524 - doe / 146096) / 365
  let y := yoe + era * 400
  let doy := doe - (365 * yoe + yoe / 4 - yoe / 100)
  let mp := (5 * doy + 2) / 153
  let d := doy - (153 * mp + 2) / 5 + 1
  let m := if mp < 10 then mp + 3 else mp - 9
  if m ≤ 2 then (y + 1, m, d) else (y, m, d)

/-- Decimal rendering of `n` zero-padded to width `w`. -/
def padNum (w n : Nat) : String :=
  ⟨List.replicate (w - (toString n).length) '0'⟩ ++ toString n

/-- `datetime.isoformat()` of a UTC instant: the `+00:00`-suffixed
ISO-8601 form, with the `.ffffff` fraction present exactly when the
microsecond field is nonzero — as CPython renders an aware UTC datetime. -/
def isoUtc (t : Int) : String :=
  let day := Int.fdiv t 86400000000
  let rem := (t - day * 86400000000).toNat
  let ymd := civilFromDays day
  let us := rem % 1000000
  let secs := rem / 1000000
  padNum 4 ymd.1 ++ "-" ++ padNum 2 ymd.2.1 ++ "-" ++ padNum 2 ymd.2.2 ++
    "T" ++ padNum 2 (secs / 3600) ++ ":" ++ padNum 2 (secs / 60 % 60) ++
    ":" ++ padNum 2 (secs % 60) ++
    (if us = 0 then "" else "." ++ padNum 6 us) ++ "+00:00"

/-! ## `parse_date_utc` — model of `datetime.strptime(s, "%Y-%m-%d")`

CPython's `strptime` compiles `"%Y-%m-%d"` to the anchored regex
`(\d\d\d\d)-(1[0-2]|0[1-9]|[1-9])-(3[01]|[12]\d|0[1-9]|[1-9])` and
rejects unconverted trailing data, so a string is accepted exactly when
it is three dash-separated groups: a 4-digit year, a 1-2 digit month,
and a 1-2 digit day; the `datetime` constructor then requires
`1 ≤ year` and `day ≤ daysInMonth`. A `ValueError` becomes
`SystemExit("Invalid date format: ...")` in the source, modelled as
`none`. Note the month and day need *not* be zero-padded. -/

/-- A calendar date as parsed from the command line (the time fields of
the resulting `datetime` are all zero: UTC midnight). -/
structure PDate where
  y : Nat
  m : Nat
  d : Nat
deriving DecidableEq, Repr

/-- Value of a decimal digit character. -/
def digitVal (c : Char) : Nat := c.toNat - 48

/-- Value of a decimal digit string. -/
def digitsVal (cs : List Char) : Nat :=
  cs.foldl (fun a c => 10 * a + digitVal c) 0

/-- The `%Y` group: exactly four decimal digits. -/
def isYearGroup (cs : List Char) : Bool :=
  cs.length = 4 && cs.all Char.isDigit

/-- The `%m` group: regex `1[0-2]|0[1-9]|[1-9]`. -/
def isMonthGroup (cs : List Char) : Bool :=
  match cs with
  | [c] => '1' ≤ c && c ≤ '9'
  | [c1, c2] =>
    (c1 = '0' && ('1' ≤ c2 && c2 ≤ '9')) || (c1 = '1' && ('0' ≤ c2 && c2 ≤ '2'))
  | _ => false

/-- The `%d` group: regex `3[01]|[12]\d|0[1-9]|[1-9]`. -/
def isDayGroup (cs : List Char) : Bool :=
  match cs with
  | [c] => '1' ≤ c && c ≤ '9'
  | [c1, c2] =>
    (c1 = '3' && (c2 = '0' || c2 = '1')) ||
    ((c1 = '1' || c1 = '2') && c2.isDigit) ||
    (c1 = '0' && ('1' ≤ c2 && c2 ≤ '9'))
  | _ => false

/-- `parse_date_utc`: parse `YYYY-MM-DD` (per `strptime`, month and day
may be one or two digits) to a date, used as UTC midnight; `none` models
the `SystemExit("Invalid date format: ...")` path. -/
def parse_date_utc (s : String) : Option PDate :=
  match splitChar '-' s.data with
  | [ys, ms, ds] =>
    if isYearGroup ys && isMonthGroup ms && isDayGroup ds then
      let y := digitsVal ys
      let m := digitsVal ms
      let d := digitsVal ds
      if 1 ≤ y && d ≤ daysInMonth y m then some ⟨y, m, d⟩ else none
    else none
  | _ => none

/-! ## The resolved time window (`run()` lines 151-163) -/

/-- The window the driver runs with: the authoritative inclusive
`[start, endE]` instants and the padded exclusive query bounds handed to
`channel.history`. -/
structure Window where
  start : Int
  endE : Int
  after : Int
  before : Int
deriving DecidableEq, Repr

/-- Microseconds in `timedelta(hours=23, minutes=59, seconds=59,
microseconds=999999)`, the end-of-day padding added to `date-end`. -/
def endOfDayMicros : Nat := 86399999999

/-- Date-window resolution from `run()`: parse `--date-start`, compute
the effective end instant (end-of-day of `--date-end`, or `now` when
omitted), reject an end before the start (`SystemExit`, modelled as
`none`), and pad the exclusive query bounds by one second each way. -/
def resolveWindow (dateStart : String) (dateEnd : Option String) (now : Int) :
    Option Window :=
  match parse_date_utc dateStart with
  | none => none
  | some ps =>
    let startI := dateMicros ps.y ps.m ps.d
    let endI? : Option Int :=
      match dateEnd with
      | some es =>
        match parse_date_utc es with
        | none => none
        | some pe => some (dateMicros pe.y pe.m pe.d + (endOfDayMicros : Nat))
      | none => some now
    match endI? with
    | none => none
    | some endI =>
      if endI < startI then none
      else some ⟨startI, endI, startI - 1000000, endI + 1000000⟩

/-! ## `compute_filename` and `is_media` -/

/-- `compute_filename`: the first 16 hex characters of
`sha256("{author_id}-{attachment_id}-{created_at_iso}")` followed by the
original name's lower-cased suffix. -/
def compute_filename (author_id : Nat) (created_at : Int)
    (attachment_id : Nat) (original_name : String) : String :=
  let ext := pyLower (pySuffix original_name)
  let base := toString author_id ++ "-" ++ toString attachment_id ++ "-" ++
    isoUtc created_at
  let digest : String := ⟨(sha256HexChars base).take 16⟩
  if ext = "" then digest else digest ++ ext

/-- The image-extension allow-list of `is_media`. -/
def image_exts : List String :=
  [".jpg", ".jpeg", ".png", ".gif", ".webp", ".bmp", ".tiff", ".heic"]

/-- The video-extension allow-list of `is_media`. -/
def video_exts : List String :=
  [".mp4", ".mov", ".m4v", ".webm", ".mkv", ".avi"]

/-- A Discord attachment as the driver reads it. `saveOk` is the
environment's verdict on `await att.save(dest)`: `false` means the fetch
or write would raise. -/
structure Att where
  id : Nat
  filename : String
  url : String
  contentType : Option String
  saveOk : Bool
deriving DecidableEq, Repr

/-- `is_media`: accept when the declared content type (lower-cased)
begins with `image/` or `video/`, else fall back to the extension
allow-lists. -/
def is_media (att : Att) : Bool :=
  let ct := pyLower (att.contentType.getD "")
  if strStartsWith ct "image/" || strStartsWith ct "video/" then true
  else
    let ext := pyLower (pySuffix att.filename)
    image_exts.contains ext || video_exts.contains ext

/-! ## The manifest (SQLite `downloads` table) -/

/-- One row of the `downloads` table; all columns are `TEXT`, written by
`db_insert` via `str(...)` / `isoformat()`. -/
structure DownloadRecord where
  attachment_id : String
  message_id : String
  channel_id : String
  guild_id : String
  url : String
  filename : String
  created_at_utc : String
deriving DecidableEq, Repr

/-- `db_has_attachment`: `SELECT 1 FROM downloads WHERE attachment_id=?`
with the id stringified. -/
def db_has_attachment (db : List DownloadRecord) (attachment_id : Nat) : Bool :=
  db.any (fun r => r.attachment_id == toString attachment_id)

/-- `db_insert`: `INSERT OR IGNORE` keyed on the `attachment_id` primary
key — a no-op when a row with that key exists, an append otherwise.
Total: the Python call raises nothing on conflict. -/
def db_insert (db : List DownloadRecord)
    (attachment_id message_id channel_id guild_id : Nat)
    (url filename : String) (created_at_utc : Int) : List DownloadRecord :=
  if db.any (fun r => r.attachment_id == toString attachment_id) then db
  else db ++
    [⟨toString attachment_id, toString message_id, toString channel_id,
      toString guild_id, url, filename, isoUtc created_at_utc⟩]

/-! ## The ingestion driver (`on_ready` per-message / per-attachment loop) -/

/-- A Discord message as the driver reads it: ids, UTC creation instant,
attachments. -/
structure Msg where
  id : Nat
  authorId : Nat
  createdAt : Int
  attachments : List Att
deriving DecidableEq, Repr

/-- Driver state: the manifest connection's table, the names present in
the download directory, the log of attempted `att.save` destinations
(fetches), and the three run counters. -/
structure RunState where
  db : List DownloadRecord
  disk : List String
  saves : List String
  seen : Nat
  downloaded : Nat
  skipped : Nat
deriving DecidableEq, Repr

/-- The state at process start of a fresh deployment: empty manifest,
empty download directory, zero counters. -/
def initialState : RunState := ⟨[], [], [], 0, 0, 0⟩

/-- The boundary re-check
`start_dt <= msg_created_utc <= end_dt` from `on_ready`. -/
def boundaryCheck (w : Window) (t : Int) : Bool :=
  decide (w.start ≤ t) && decide (t ≤ w.endE)

/-- The destination name `compute_filename(msg.author.id,
msg.created_at, att.id, att.filename)` for an attachment of a message. -/
def destName (m : Msg) (a : Att) : String :=
  compute_filename m.authorId m.createdAt a.id a.filename

/-- One iteration of the per-attachment loop: classify, manifest check,
disk-existence repair, then the guarded save / record / count step; a
failing save (the `except` arm) leaves everything but the attempt log
unchanged. -/
def processAttachment (guildId chId : Nat) (m : Msg) (s : RunState)
    (a : Att) : RunState :=
  if is_media a = false then s
  else if db_has_attachment s.db a.id then
    {s with skipped := s.skipped + 1}
  else if s.disk.contains (destName m a) then
    {s with
      db := db_insert s.db a.id m.id chId guildId a.url (destName m a)
        m.createdAt,
      skipped := s.skipped + 1}
  else if a.saveOk then
    {s with
      saves := s.saves ++ [destName m a],
      disk := s.disk ++ [destName m a],
      db := db_insert s.db a.id m.id chId guildId a.url (destName m a)
        m.createdAt,
      downloaded := s.downloaded + 1}
  else
    {s with saves := s.saves ++ [destName m a]}

/-- One iteration of the per-message loop: count it, skip
attachment-less messages, re-check the inclusive window, then fold the
per-attachment loop over its attachments. -/
def processMessage (guildId chId : Nat) (w : Window) (s : RunState)
    (m : Msg) : RunState :=
  if m.attachments.isEmpty then {s with seen := s.seen + 1}
  else if boundaryCheck w m.createdAt = false then {s with seen := s.seen + 1}
  else m.attachments.foldl (fun st a => processAttachment guildId chId m st a)
    {s with seen := s.seen + 1}

/-- One channel's scan: the per-message loop over the stream the padded
query returns, oldest first. -/
def runMessages (guildId chId : Nat) (w : Window) (msgs : List Msg)
    (s : RunState) : RunState :=
  msgs.foldl (processMessage guildId chId w) s

/-! ## Derived views of the driver, used to state the run-level claims -/

/-- The media attachments one message contributes to a run, in order:
none unless its timestamp passes the boundary re-check. Messages
without attachments contribute nothing either way, as in the driver. -/
def msgPairs (w : Window) (m : Msg) : List (Msg × Att) :=
  if boundaryCheck w m.createdAt then
    (m.attachments.filter (fun a => is_media a)).map (fun a => (m, a))
  else []

/-- The attachments a run actually considers for download, in processing
order. -/
def eligiblePairs (w : Window) (msgs : List Msg) : List (Msg × Att) :=
  msgs.flatMap (msgPairs w)

/-- Fold the per-attachment step over an explicit message-attachment
pair list. -/
def processPairs (guildId chId : Nat) (s : RunState)
    (ps : List (Msg × Att)) : RunState :=
  ps.foldl (fun st pr => processAttachment guildId chId pr.1 st pr.2) s

/-- The manifest key a pair would be recorded under. -/
def pairKey (pr : Msg × Att) : String := toString pr.2.id

/-- The destination name a pair downloads to. -/
def pairDest (pr : Msg × Att) : String := destName pr.1 pr.2

/-- The manifest row a pair's successful save (or disk repair) inserts. -/
def pairRecord (guildId chId : Nat) (pr : Msg × Att) : DownloadRecord :=
  ⟨toString pr.2.id, toString pr.1.id, toString chId, toString guildId,
   pr.2.url, pairDest pr, isoUtc pr.1.createdAt⟩

/-- The primary-key column of the manifest. -/
def dbKeys (db : List DownloadRecord) : List String :=
  db.map (fun r => r.attachment_id)

/-! ## Definitions written from the specification's words, to be compared
with the source-derived definitions above -/

/-- Modelled from the spec (§4.2): `hex16 + extension`, where `hex16` is
the first 16 hex characters of the SHA-256 digest of
`"{author_id}-{attachment_id}-{iso8601_utc_timestamp}"` and `extension`
is the original name's suffix lower-cased (empty when there is none). -/
def specHex16PlusExt (author_id : Nat) (created_at : Int)
    (attachment_id : Nat) (original_name : String) : String :=
  (⟨(sha256HexChars (toString author_id ++ "-" ++ toString attachment_id ++
      "-" ++ isoUtc created_at)).take 16⟩ : String) ++
    pyLower (pySuffix original_name)

/-- A lower-case hexadecimal character. -/
def isLowerHexChar (c : Char) : Bool :=
  c.isDigit || ('a' ≤ c && c ≤ 'f')

/-- Joining `name` under a fixed directory yields a path inside that
directory exactly when `name` is a single, non-special path component:
nonempty, not `.` or `..`, and free of the separator. -/
def staysInside (name : String) : Prop :=
  name ≠ "" ∧ name ≠ "." ∧ name ≠ ".." ∧ '/' ∉ name.data

/-- The claim's strict `YYYY-MM-DD` calendar-date pattern: exactly ten
characters, a four-digit year from 1, a zero-padded two-digit month
`01`-`12`, a zero-padded two-digit day valid for that month and year. -/
def strictDateFormat (s : String) : Bool :=
  match s.data with
  | [y1, y2, y3, y4, s1, m1, m2, s2, d1, d2] =>
    s1 = '-' && s2 = '-' &&
    [y1, y2, y3, y4].all Char.isDigit &&
    isMonthGroup [m1, m2] && isDayGroup [d1, d2] &&
    1 ≤ digitsVal [y1, y2, y3, y4] &&
    digitsVal [d1, d2] ≤
      daysInMonth (digitsVal [y1, y2, y3, y4]) (digitsVal [m1, m2])
  | _ => false

/-- The calendar date written by a strict `YYYY-MM-DD` string. -/
def strictValue (s : String) : PDate :=
  match s.data with
  | [y1, y2, y3, y4, _, m1, m2, _, d1, d2] =>
    ⟨digitsVal [y1, y2, y3, y4], digitsVal [m1, m2], digitsVal [d1, d2]⟩
  | _ => ⟨0, 0, 0⟩

/-- What `strptime("%Y-%m-%d")` plus the `datetime` constructor actually
accept: three dash-separated groups — a four-digit year from 1, a one-
or two-digit month, a one- or two-digit day valid for the month — with
no zero-padding requirement on month and day. -/
def RelaxedDate (s : String) : Prop :=
  ∃ ys ms ds : List Char,
    s.data = ys ++ '-' :: (ms ++ '-' :: ds) ∧
    isYearGroup ys = true ∧ isMonthGroup ms = true ∧ isDayGroup ds = true ∧
    1 ≤ digitsVal ys ∧
    digitsVal ds ≤ daysInMonth (digitsVal ys) (digitsVal ms)

/-- Inverse of `splitChar`: join parts with the separator. -/
def joinSep (sep : Char) : List (List Char) → List Char
  | [] => []
  | [p] => p
  | p :: q :: ps => p ++ sep :: joinSep sep (q :: ps)

/-! # Theorems -/

/-! ## C5 — the filename deriver matches its specification -/

/-- **C5.** For every author id, attachment id, UTC message timestamp
and original filename, `compute_filename` returns the first 16 hex
characters of the SHA-256 digest of
`"{author_id}-{attachment_id}-{iso8601_utc_timestamp}"` concatenated
with the original name's lower-cased suffix (empty when there is none) —
the spec-side formula `specHex16PlusExt`. Both sides are pure Lean
functions, so identical inputs yield identical outputs across repeated
calls by construction. -/
theorem compute_filename_matches_spec :
    ∀ (author_id : Nat) (created_at : Int) (attachment_id : Nat)
      (original_name : String),
      compute_filename author_id created_at attachment_id original_name =
        specHex16PlusExt author_id created_at attachment_id original_name := by
  intro a t i nm
  unfold compute_filename specHex16PlusExt
  by_cases h : pyLower (pySuffix nm) = ""
  · simp only [h, if_pos]
    exact (String.append_empty _).symm
  · simp only [h, if_neg, ite_false]

/-- Closed instance of `compute_filename_matches_spec`. -/
theorem compute_filename_matches_spec_witness :
    compute_filename 123456789 (dateMicros 2025 11 7) 987654321
        "Holiday Photo.JPG" =
      specHex16PlusExt 123456789 (dateMicros 2025 11 7) 987654321
        "Holiday Photo.JPG" :=
  compute_filename_matches_spec 123456789 (dateMicros 2025 11 7) 987654321
    "Holiday Photo.JPG"

/-! ## C7 — the media classifier accepts exactly the specified set -/

/-- **C7.** `is_media` accepts an attachment iff its declared content
type, lower-cased, begins with `image/` or `video/`, or its filename's
lower-cased extension is in the image or video allow-list; every other
attachment is rejected. -/
theorem is_media_iff :
    ∀ a : Att,
      is_media a = true ↔
        (strStartsWith (pyLower (a.contentType.getD "")) "image/" = true ∨
         strStartsWith (pyLower (a.contentType.getD "")) "video/" = true ∨
         pyLower (pySuffix a.filename) ∈ image_exts ∨
         pyLower (pySuffix a.filename) ∈ video_exts) := by
  intro a
  simp only [is_media]
  split
  · next h =>
    simp only [Bool.or_eq_true] at h
    rcases h with h' | h'
    · simp only [true_iff]
      exact Or.inl h'
    · simp only [true_iff]
      exact Or.inr (Or.inl h')
  · next h =>
    simp only [Bool.or_eq_true, not_or] at h
    constructor
    · intro hm
      simp only [Bool.or_eq_true] at hm
      rcases hm with hm' | hm'
      · exact Or.inr (Or.inr (Or.inl (by
          simpa [List.contains, List.elem_iff] using hm')))
      · exact Or.inr (Or.inr (Or.inr (by
          simpa [List.contains, List.elem_iff] using hm')))
    · intro hm
      simp only [Bool.or_eq_true]
      rcases hm with hm' | hm' | hm' | hm'
      · exact absurd hm' h.1
      · exact absurd hm' h.2
      · exact Or.inl (by simpa [List.contains, List.elem_iff] using hm')
      · exact Or.inr (by simpa [List.contains, List.elem_iff] using hm')

/-- Closed instance of `is_media_iff`: `clip.mp4` with no content type is
accepted via the extension fallback. -/
theorem is_media_iff_witness :
    is_media ⟨7, "clip.mp4", "u", none, true⟩ = true :=
  (is_media_iff ⟨7, "clip.mp4", "u", none, true⟩).mpr
    (Or.inr (Or.inr (Or.inr (by decide))))

/-! ## C8 — the query bounds are the window padded by one second -/

/-- **C8.** For every resolved window, the bounds handed to the
exclusive-bound history API are exactly the authoritative start minus
one second and the effective end plus one second
(1 s = 1000000 µs). -/
theorem query_bounds_padded :
    ∀ (dateStart : String) (dateEnd : Option String) (now : Int) (w : Window),
      resolveWindow dateStart dateEnd now = some w →
        w.after = w.start - 1000000 ∧ w.before = w.endE + 1000000 := by
  intro ds de now w h
  unfold resolveWindow at h
  rcases hp : parse_date_utc ds with _ | ps
  · rw [hp] at h; simp at h
  · rw [hp] at h
    dsimp only at h
    rcases de with _ | es
    · dsimp only at h
      split at h
      · simp at h
      · cases h; exact ⟨rfl, rfl⟩
    · dsimp only at h
      rcases hq : parse_date_utc es with _ | pe
      · rw [hq] at h; simp at h
      · rw [hq] at h
        dsimp only at h
        split at h
        · simp at h
        · cases h; exact ⟨rfl, rfl⟩

/-! ## Manifest lemmas -/

/-- `db_has_attachment` is membership of the stringified id in the key
column. -/
theorem db_has_attachment_iff (db : List DownloadRecord) (aid : Nat) :
    db_has_attachment db aid = true ↔ toString aid ∈ dbKeys db := by
  simp only [db_has_attachment, dbKeys, List.any_eq_true, List.mem_map,
    beq_iff_eq]

/-- Inserting a fresh key appends exactly the new row. -/
theorem db_insert_of_fresh (db : List DownloadRecord)
    (aid mi ci gi : Nat) (u f : String) (t : Int)
    (h : db_has_attachment db aid = false) :
    db_insert db aid mi ci gi u f t =
      db ++ [⟨toString aid, toString mi, toString ci, toString gi, u, f,
        isoUtc t⟩] := by
  unfold db_has_attachment at h
  simp only [db_insert, h, Bool.false_eq_true, if_false]

/-- Inserting a key that is already present is a no-op. -/
theorem db_insert_of_present (db : List DownloadRecord)
    (aid mi ci gi : Nat) (u f : String) (t : Int)
    (h : db_has_attachment db aid = true) :
    db_insert db aid mi ci gi u f t = db := by
  unfold db_has_attachment at h
  simp only [db_insert, h, if_true]

/-- An absent key matches no row at all. -/
theorem db_filter_of_absent (db : List DownloadRecord) (aid : Nat)
    (h : db_has_attachment db aid = false) :
    db.filter (fun r => r.attachment_id == toString aid) = [] := by
  unfold db_has_attachment at h
  rw [List.filter_eq_nil_iff]
  intro r hr hp
  have : db.any (fun r => r.attachment_id == toString aid) = true :=
    List.any_eq_true.mpr ⟨r, hr, hp⟩
  simp [this] at h

/-! ## C2 — manifest insert is idempotent and first-write-wins -/

/-- **C2.** Inserting an `attachment_id` already present in the manifest
is a silent no-op (the modelled operation is total, as the SQLite
`INSERT OR IGNORE` raises nothing), and after a first insert of a fresh
id, a second insert with the same id and arbitrary other fields changes
nothing and leaves exactly one record for that id, carrying the first
insert's fields. -/
theorem manifest_insert_idempotent :
    (∀ (db : List DownloadRecord) (aid mi ci gi : Nat) (u f : String)
        (t : Int),
      db_has_attachment db aid = true →
      db_insert db aid mi ci gi u f t = db) ∧
    (∀ (db : List DownloadRecord) (aid : Nat)
        (m1 c1 g1 : Nat) (u1 f1 : String) (t1 : Int)
        (m2 c2 g2 : Nat) (u2 f2 : String) (t2 : Int),
      db_has_attachment db aid = false →
      db_insert (db_insert db aid m1 c1 g1 u1 f1 t1) aid m2 c2 g2 u2 f2 t2 =
        db_insert db aid m1 c1 g1 u1 f1 t1 ∧
      (db_insert (db_insert db aid m1 c1 g1 u1 f1 t1) aid
          m2 c2 g2 u2 f2 t2).filter
          (fun r => r.attachment_id == toString aid) =
        [⟨toString aid, toString m1, toString c1, toString g1, u1, f1,
          isoUtc t1⟩]) := by
  constructor
  · intro db aid mi ci gi u f t h
    exact db_insert_of_present db aid mi ci gi u f t h
  · intro db aid m1 c1 g1 u1 f1 t1 m2 c2 g2 u2 f2 t2 h
    have h1 := db_insert_of_fresh db aid m1 c1 g1 u1 f1 t1 h
    have hpres : db_has_attachment
        (db_insert db aid m1 c1 g1 u1 f1 t1) aid = true := by
      rw [h1]
      unfold db_has_attachment
      simp
    refine ⟨db_insert_of_present _ aid m2 c2 g2 u2 f2 t2 hpres, ?_⟩
    rw [db_insert_of_present _ aid m2 c2 g2 u2 f2 t2 hpres, h1,
      List.filter_append, db_filter_of_absent db aid h]
    simp

/-- Closed instance of `manifest_insert_idempotent`: a duplicate insert
into a one-row manifest is a no-op, and a double insert into an empty
manifest keeps the first row's fields. -/
theorem manifest_insert_idempotent_witness :
    (db_has_attachment [⟨"11", "1", "2", "3", "u", "f", "t"⟩] 11 = true ∧
     db_insert [⟨"11", "1", "2", "3", "u", "f", "t"⟩] 11 9 9 9 "u2" "f2" 0 =
       [⟨"11", "1", "2", "3", "u", "f", "t"⟩]) ∧
    (db_has_attachment [] 11 = false ∧
     db_insert (db_insert [] 11 1 2 3 "u" "f" 0) 11 9 9 9 "u2" "f2" 5 =
       db_insert [] 11 1 2 3 "u" "f" 0 ∧
     (db_insert (db_insert [] 11 1 2 3 "u" "f" 0) 11 9 9 9 "u2" "f2" 5).filter
         (fun r => r.attachment_id == toString 11) =
       [⟨toString 11, toString 1, toString 2, toString 3, "u", "f",
         isoUtc 0⟩]) :=
  ⟨⟨by decide,
    manifest_insert_idempotent.1 _ 11 9 9 9 "u2" "f2" 0 (by decide)⟩,
   ⟨by decide,
    manifest_insert_idempotent.2 [] 11 1 2 3 "u" "f" 0 9 9 9 "u2" "f2" 5
      (by decide)⟩⟩

/-! ## C3 — disk-existence repair: record, skip, never fetch -/

/-- **C3.** For a media attachment whose derived destination name is
already on disk but whose id is absent from the manifest, the driver
attempts no save (no fetch, so the existing file is not overwritten),
inserts exactly one manifest record for the attachment, and increments
the skipped counter, not the downloaded counter. -/
theorem disk_repair_records_without_fetch :
    ∀ (guildId chId : Nat) (m : Msg) (s : RunState) (a : Att),
      is_media a = true →
      db_has_attachment s.db a.id = false →
      s.disk.contains (destName m a) = true →
      processAttachment guildId chId m s a =
        {s with
          db := s.db ++ [⟨toString a.id, toString m.id, toString chId,
            toString guildId, a.url, destName m a, isoUtc m.createdAt⟩],
          skipped := s.skipped + 1} ∧
      (processAttachment guildId chId m s a).saves = s.saves ∧
      (processAttachment guildId chId m s a).disk = s.disk ∧
      (processAttachment guildId chId m s a).downloaded = s.downloaded ∧
      (processAttachment guildId chId m s a).db.filter
          (fun r => r.attachment_id == toString a.id) =
        [⟨toString a.id, toString m.id, toString chId, toString guildId,
          a.url, destName m a, isoUtc m.createdAt⟩] := by
  intro guildId chId m s a hm hdb hdisk
  have hstep : processAttachment guildId chId m s a =
      {s with
        db := s.db ++ [⟨toString a.id, toString m.id, toString chId,
          toString guildId, a.url, destName m a, isoUtc m.createdAt⟩],
        skipped := s.skipped + 1} := by
    unfold processAttachment
    rw [if_neg (by simp [hm]), if_neg (by simp [hdb]), if_pos hdisk,
      db_insert_of_fresh s.db a.id m.id chId guildId a.url
        (destName m a) m.createdAt hdb]
  refine ⟨hstep, by rw [hstep], by rw [hstep], by rw [hstep], ?_⟩
  rw [hstep]
  dsimp only
  rw [List.filter_append, db_filter_of_absent s.db a.id hdb]
  simp

/-- Closed instance of `disk_repair_records_without_fetch`: a `pic.png`
already on disk and absent from the manifest is repaired, not fetched. -/
theorem disk_repair_records_without_fetch_witness :
    is_media ⟨30, "pic.png", "u", some "image/png", true⟩ = true ∧
    db_has_attachment [] 30 = false ∧
    [destName ⟨10, 20, 0, []⟩ ⟨30, "pic.png", "u", some "image/png", true⟩].contains
      (destName ⟨10, 20, 0, []⟩ ⟨30, "pic.png", "u", some "image/png", true⟩) =
      true ∧
    (processAttachment 1 2 ⟨10, 20, 0, []⟩
        ⟨[], [destName ⟨10, 20, 0, []⟩ ⟨30, "pic.png", "u", some "image/png", true⟩],
         [], 0, 0, 0⟩
        ⟨30, "pic.png", "u", some "image/png", true⟩).saves = [] ∧
    (processAttachment 1 2 ⟨10, 20, 0, []⟩
        ⟨[], [destName ⟨10, 20, 0, []⟩ ⟨30, "pic.png", "u", some "image/png", true⟩],
         [], 0, 0, 0⟩
        ⟨30, "pic.png", "u", some "image/png", true⟩).downloaded = 0 := by
  have hc : [destName ⟨10, 20, 0, []⟩
      ⟨30, "pic.png", "u", some "image/png", true⟩].contains
      (destName ⟨10, 20, 0, []⟩ ⟨30, "pic.png", "u", some "image/png", true⟩) =
      true := by
    simp [List.contains]
  have h := disk_repair_records_without_fetch 1 2 ⟨10, 20, 0, []⟩
    ⟨[], [destName ⟨10, 20, 0, []⟩ ⟨30, "pic.png", "u", some "image/png", true⟩],
     [], 0, 0, 0⟩
    ⟨30, "pic.png", "u", some "image/png", true⟩ (by decide) (by decide) hc
  exact ⟨by decide, by decide, hc, h.2.1, h.2.2.2.1⟩

/-! ## C6 — a failing save is attachment-local -/

/-- **C6.** When saving one attachment's bytes fails (`saveOk = false`
on the branch that actually attempts a save), the failure is absorbed:
no manifest record is inserted, the disk and both counters are
unchanged (only the attempt log grows), and the fold simply continues
with the remaining attachments from that state. -/
theorem save_failure_is_isolated :
    ∀ (guildId chId : Nat) (m : Msg) (s : RunState) (a : Att)
      (rest : List Att),
      is_media a = true →
      db_has_attachment s.db a.id = false →
      s.disk.contains (destName m a) = false →
      a.saveOk = false →
      (processAttachment guildId chId m s a).db = s.db ∧
      (processAttachment guildId chId m s a).disk = s.disk ∧
      (processAttachment guildId chId m s a).downloaded = s.downloaded ∧
      (processAttachment guildId chId m s a).skipped = s.skipped ∧
      (processAttachment guildId chId m s a).saves =
        s.saves ++ [destName m a] ∧
      (a :: rest).foldl (fun st x => processAttachment guildId chId m st x) s =
        rest.foldl (fun st x => processAttachment guildId chId m st x)
          (processAttachment guildId chId m s a) := by
  intro guildId chId m s a rest hm hdb hdisk hsave
  have hstep : processAttachment guildId chId m s a =
      {s with saves := s.saves ++ [destName m a]} := by
    unfold processAttachment
    rw [if_neg (by simp [hm]), if_neg (by simp [hdb]),
      if_neg (by rw [hdisk]; simp), if_neg (by simp [hsave])]
  exact ⟨by rw [hstep], by rw [hstep], by rw [hstep], by rw [hstep],
    by rw [hstep], rfl⟩

/-- Closed instance of `save_failure_is_isolated`: a failing save of a
media attachment leaves the manifest and counters untouched. -/
theorem save_failure_is_isolated_witness :
    is_media ⟨31, "vid.mp4", "u", none, false⟩ = true ∧
    db_has_attachment [] 31 = false ∧
    ([] : List String).contains
      (destName ⟨10, 20, 0, []⟩ ⟨31, "vid.mp4", "u", none, false⟩) = false ∧
    (processAttachment 1 2 ⟨10, 20, 0, []⟩ ⟨[], [], [], 0, 0, 0⟩
        ⟨31, "vid.mp4", "u", none, false⟩).db = [] ∧
    (processAttachment 1 2 ⟨10, 20, 0, []⟩ ⟨[], [], [], 0, 0, 0⟩
        ⟨31, "vid.mp4", "u", none, false⟩).downloaded = 0 ∧
    (processAttachment 1 2 ⟨10, 20, 0, []⟩ ⟨[], [], [], 0, 0, 0⟩
        ⟨31, "vid.mp4", "u", none, false⟩).skipped = 0 := by
  have h := save_failure_is_isolated 1 2 ⟨10, 20, 0, []⟩ ⟨[], [], [], 0, 0, 0⟩
    ⟨31, "vid.mp4", "u", none, false⟩ [] (by decide) (by decide) (by decide)
    (by decide)
  exact ⟨by decide, by decide, by decide, h.1, h.2.2.1, h.2.2.2.1⟩

/-- Closed instance of `query_bounds_padded` at a concretely resolved
window. -/
theorem query_bounds_padded_witness :
    ∃ w : Window,
      resolveWindow "2025-11-05" (some "2025-11-09") 0 = some w ∧
      w.after = w.start - 1000000 ∧ w.before = w.endE + 1000000 := by
  refine ⟨⟨1762300800000000, 1762732799999999,
    1762300800000000 - 1000000, 1762732799999999 + 1000000⟩, ?_, ?_⟩
  · decide
  · exact query_bounds_padded "2025-11-05" (some "2025-11-09") 0 _ (by decide)

/-! ## C4 — the window is inclusive through end-of-day -/

/-- **C4.** With an end date supplied, the resolved window's effective
end instant is that date at 23:59:59.999999 UTC, and the driver's
boundary re-check accepts a message timestamp `t` exactly when
`start ≤ t ≤ effectiveEnd`; in particular for `start=2025-11-05`,
`end=2025-11-09`, the instant `2025-11-09T23:59:59.999999Z` is
accepted, `2025-11-10T00:00:00Z` is rejected, and
`2025-11-05T00:00:00Z` is accepted. -/
theorem window_boundary_inclusive :
    (∀ (dateStart dateEnd : String) (now : Int) (w : Window),
        resolveWindow dateStart (some dateEnd) now = some w →
        (∃ p : PDate, parse_date_utc dateEnd = some p ∧
          w.endE = timeMicros p.y p.m p.d 23 59 59 999999) ∧
        (∀ t : Int, boundaryCheck w t = true ↔ (w.start ≤ t ∧ t ≤ w.endE))) ∧
    (∃ w : Window,
      resolveWindow "2025-11-05" (some "2025-11-09") 0 = some w ∧
      boundaryCheck w (timeMicros 2025 11 9 23 59 59 999999) = true ∧
      boundaryCheck w (timeMicros 2025 11 10 0 0 0 0) = false ∧
      boundaryCheck w (timeMicros 2025 11 5 0 0 0 0) = true) := by
  constructor
  · intro ds de now w h
    unfold resolveWindow at h
    rcases hp : parse_date_utc ds with _ | ps
    · rw [hp] at h; simp at h
    · rw [hp] at h
      dsimp only at h
      rcases hq : parse_date_utc de with _ | pe
      · rw [hq] at h; simp at h
      · rw [hq] at h
        dsimp only at h
        split at h
        · simp at h
        · cases h
          refine ⟨⟨pe, rfl, ?_⟩, ?_⟩
          · show dateMicros pe.y pe.m pe.d + ((endOfDayMicros : Nat) : Int) =
              timeMicros pe.y pe.m pe.d 23 59 59 999999
            unfold timeMicros endOfDayMicros
            norm_num
          · intro t
            simp [boundaryCheck]
  · exact ⟨⟨1762300800000000, 1762732799999999,
      1762300800000000 - 1000000, 1762732799999999 + 1000000⟩,
      by decide, by decide, by decide, by decide⟩

/-- Closed instance of `window_boundary_inclusive` at the concrete
window of the spec's example. -/
theorem window_boundary_inclusive_witness :
    ∃ p : PDate, parse_date_utc "2025-11-09" = some p ∧
      (1762732799999999 : Int) = timeMicros p.y p.m p.d 23 59 59 999999 :=
  (window_boundary_inclusive.1 "2025-11-05" "2025-11-09" 0
    ⟨1762300800000000, 1762732799999999,
     1762300800000000 - 1000000, 1762732799999999 + 1000000⟩ (by decide)).1

/-! ## Splitting lemmas, relating `splitChar` to explicit decompositions -/

/-- `splitChar` always yields at least one part. -/
theorem splitChar_ne_nil (sep : Char) (cs : List Char) :
    splitChar sep cs ≠ [] := by
  induction cs with
  | nil => simp [splitChar]
  | cons c cs ih =>
    simp only [splitChar]
    split
    · simp
    · rcases h : splitChar sep cs with _ | ⟨p, ps⟩
      · exact absurd h ih
      · simp [consPart]

/-- A leading separator contributes a leading empty part. -/
theorem splitChar_sep_cons (sep : Char) (cs : List Char) :
    splitChar sep (sep :: cs) = [] :: splitChar sep cs := by
  simp [splitChar]

/-- A leading non-separator extends the first part. -/
theorem splitChar_cons_ne (sep c : Char) (cs : List Char) (hc : c ≠ sep)
    (p : List Char) (ps : List (List Char))
    (h : splitChar sep cs = p :: ps) :
    splitChar sep (c :: cs) = (c :: p) :: ps := by
  simp [splitChar, hc, h, consPart]

/-- A separator-free list is a single part. -/
theorem splitChar_no_sep (sep : Char) (a : List Char) (h : sep ∉ a) :
    splitChar sep a = [a] := by
  induction a with
  | nil => rfl
  | cons c cs ih =>
    have hc : c ≠ sep := by rintro rfl; exact h (List.mem_cons_self _ _)
    have hcs : sep ∉ cs := fun hm => h (List.mem_cons_of_mem _ hm)
    exact splitChar_cons_ne sep c cs hc cs [] (ih hcs)

/-- Splitting after a separator-free leading part. -/
theorem splitChar_append (sep : Char) (a rest : List Char) (h : sep ∉ a) :
    splitChar sep (a ++ sep :: rest) = a :: splitChar sep rest := by
  induction a with
  | nil => exact splitChar_sep_cons sep rest
  | cons c cs ih =>
    have hc : c ≠ sep := by rintro rfl; exact h (List.mem_cons_self _ _)
    have hcs : sep ∉ cs := fun hm => h (List.mem_cons_of_mem _ hm)
    exact splitChar_cons_ne sep c _ hc cs (splitChar sep rest) (ih hcs)

/-- Joining the parts of a split recovers the original list. -/
theorem joinSep_splitChar (sep : Char) (cs : List Char) :
    joinSep sep (splitChar sep cs) = cs := by
  induction cs with
  | nil => rfl
  | cons c cs ih =>
    rcases h : splitChar sep cs with _ | ⟨p, ps⟩
    · exact absurd h (splitChar_ne_nil sep cs)
    · rw [h] at ih
      by_cases hc : c = sep
      · rw [hc, splitChar_sep_cons sep cs, h]
        simpa [joinSep] using congrArg (sep :: ·) ih
      · rw [splitChar_cons_ne sep c cs hc p ps h]
        cases ps with
        | nil =>
          simp only [joinSep] at ih ⊢
          rw [ih]
        | cons q qs =>
          simp only [joinSep, List.cons_append] at ih ⊢
          rw [ih]

/-! ## Character-class lemmas for the date groups -/

/-- A decimal digit is not a dash. -/
theorem digit_ne_dash (c : Char) (h : c.isDigit = true) : c ≠ '-' := by
  rintro rfl
  exact absurd h (by decide)

/-- A `%Y` group contains no dash. -/
theorem yearGroup_no_dash (ys : List Char) (h : isYearGroup ys = true) :
    '-' ∉ ys := by
  intro hm
  rw [isYearGroup, Bool.and_eq_true] at h
  exact absurd (List.all_eq_true.mp h.2 _ hm) (by decide)

/-- A `%m` group contains no dash. -/
theorem monthGroup_no_dash (ms : List Char) (h : isMonthGroup ms = true) :
    '-' ∉ ms := by
  intro hm
  rcases ms with _ | ⟨c1, _ | ⟨c2, _ | _⟩⟩
  · simp at hm
  · have h1 := List.mem_singleton.mp hm
    subst h1
    exact absurd h (by decide)
  · simp only [isMonthGroup, Bool.or_eq_true, Bool.and_eq_true] at h
    rcases List.mem_cons.mp hm with h1 | hm2
    · subst h1
      rcases h with h2 | h2 <;> exact absurd h2.1 (by decide)
    · have h1 := List.mem_singleton.mp hm2
      subst h1
      rcases h with h2 | h2 <;> exact absurd h2.2.1 (by decide)
  · exact absurd h (by simp [isMonthGroup])

/-- A `%d` group contains no dash. -/
theorem dayGroup_no_dash (ds : List Char) (h : isDayGroup ds = true) :
    '-' ∉ ds := by
  intro hm
  rcases ds with _ | ⟨c1, _ | ⟨c2, _ | _⟩⟩
  · simp at hm
  · have h1 := List.mem_singleton.mp hm
    subst h1
    exact absurd h (by decide)
  · simp only [isDayGroup, Bool.or_eq_true, Bool.and_eq_true] at h
    rcases List.mem_cons.mp hm with h1 | hm2
    · subst h1
      rcases h with (h2 | h3) | h4
      · exact absurd h2.1 (by decide)
      · rcases h3.1 with h5 | h5 <;> exact absurd h5 (by decide)
      · exact absurd h4.1 (by decide)
    · have h1 := List.mem_singleton.mp hm2
      subst h1
      rcases h with (h2 | h3) | h4
      · rcases h2.2 with h5 | h5 <;> exact absurd h5 (by decide)
      · exact absurd h3.2 (by decide)
      · exact absurd h4.2.1 (by decide)
  · exact absurd h (by simp [isDayGroup])

/-! ## C9 — date parsing accepts more than strict `YYYY-MM-DD` -/

/-- **C9 counterexample.** `"2025-1-5"` does not match the strict
zero-padded `YYYY-MM-DD` calendar-date pattern, yet `parse_date_utc`
accepts it (as 2025-01-05, used as UTC midnight) instead of failing
with the invalid-date-format error — `strptime("%Y-%m-%d")` permits
one-digit months and days. -/
theorem parse_date_strict_counterexample :
    strictDateFormat "2025-1-5" = false ∧
    parse_date_utc "2025-1-5" = some ⟨2025, 1, 5⟩ :=
  ⟨by decide, by decide⟩

/-- **C9 (amended).** Date parsing fails with the invalid-date-format
error exactly when the input is not three dash-separated groups — a
four-digit year ≥ 1, a one- or two-digit month, and a one- or two-digit
day valid for that month — and every string matching the strict
zero-padded `YYYY-MM-DD` calendar-date pattern is parsed as UTC
midnight of that date; but strings with unpadded one-digit months or
days are accepted as well, so parsing does not reject everything
outside the strict pattern. -/
theorem parse_date_utc_amended :
    ∀ s : String,
      ((∃ p, parse_date_utc s = some p) ↔ RelaxedDate s) ∧
      (strictDateFormat s = true →
        parse_date_utc s = some (strictValue s)) := by
  intro s
  constructor
  · constructor
    · rintro ⟨p, hp⟩
      unfold parse_date_utc at hp
      rcases hsp : splitChar '-' s.data with _ | ⟨ys, rest⟩
      · rw [hsp] at hp; simp at hp
      rcases rest with _ | ⟨ms, rest2⟩
      · rw [hsp] at hp; simp at hp
      rcases rest2 with _ | ⟨ds, rest3⟩
      · rw [hsp] at hp; simp at hp
      rcases rest3 with _ | ⟨x, xs⟩
      swap
      · rw [hsp] at hp; simp at hp
      rw [hsp] at hp
      dsimp only at hp
      by_cases hgrp : (isYearGroup ys && isMonthGroup ms && isDayGroup ds) =
        true
      swap
      · rw [if_neg hgrp] at hp; simp at hp
      rw [if_pos hgrp] at hp
      by_cases hval : (decide (1 ≤ digitsVal ys) &&
          decide (digitsVal ds ≤
            daysInMonth (digitsVal ys) (digitsVal ms))) = true
      swap
      · rw [if_neg hval] at hp; simp at hp
      rw [Bool.and_eq_true, Bool.and_eq_true] at hgrp
      obtain ⟨⟨hy, hm⟩, hd⟩ := hgrp
      rw [Bool.and_eq_true] at hval
      obtain ⟨hv1, hv2⟩ := hval
      have hj := joinSep_splitChar '-' s.data
      rw [hsp] at hj
      simp only [joinSep] at hj
      exact ⟨ys, ms, ds, hj.symm, hy, hm, hd,
        of_decide_eq_true hv1, of_decide_eq_true hv2⟩
    · rintro ⟨ys, ms, ds, hdecomp, hy, hm, hd, hv1, hv2⟩
      have hsp : splitChar '-' s.data = [ys, ms, ds] := by
        rw [hdecomp, splitChar_append '-' ys _ (yearGroup_no_dash ys hy),
          splitChar_append '-' ms _ (monthGroup_no_dash ms hm),
          splitChar_no_sep '-' ds (dayGroup_no_dash ds hd)]
      refine ⟨⟨digitsVal ys, digitsVal ms, digitsVal ds⟩, ?_⟩
      unfold parse_date_utc
      rw [hsp]
      dsimp only
      rw [if_pos (by rw [hy, hm, hd]; rfl),
        if_pos (by rw [decide_eq_true hv1, decide_eq_true hv2]; rfl)]
  · intro hstrict
    unfold strictDateFormat at hstrict
    split at hstrict
    next y1 y2 y3 y4 s1 m1 m2 s2 d1 d2 heq =>
      simp only [Bool.and_eq_true, decide_eq_true_eq, and_assoc] at hstrict
      obtain ⟨hs1, hs2, hdig, hmg, hdg, hy1, hdval⟩ := hstrict
      subst hs1
      subst hs2
      have hsv : strictValue s =
          ⟨digitsVal [y1, y2, y3, y4], digitsVal [m1, m2],
           digitsVal [d1, d2]⟩ := by
        unfold strictValue
        rw [heq]
      have hyng : '-' ∉ [y1, y2, y3, y4] := by
        intro hm'
        exact absurd (List.all_eq_true.mp hdig _ hm') (by decide)
      have hsplit : splitChar '-' s.data =
          [[y1, y2, y3, y4], [m1, m2], [d1, d2]] := by
        rw [heq]
        show splitChar '-'
          ([y1, y2, y3, y4] ++ '-' :: ([m1, m2] ++ '-' :: [d1, d2])) = _
        rw [splitChar_append '-' _ _ hyng,
          splitChar_append '-' _ _ (monthGroup_no_dash _ hmg),
          splitChar_no_sep '-' _ (dayGroup_no_dash _ hdg)]
      unfold parse_date_utc
      rw [hsplit]
      dsimp only
      rw [if_pos (by simp [isYearGroup, hdig, hmg, hdg]),
        if_pos (by simp [hy1, hdval]), hsv]
    next => simp at hstrict

/-- Closed instance of `parse_date_utc_amended`: the strict pattern is
accepted, and the unpadded counterexample satisfies the relaxed
characterization. -/
theorem parse_date_utc_amended_witness :
    strictDateFormat "2025-11-05" = true ∧
    parse_date_utc "2025-11-05" = some (strictValue "2025-11-05") ∧
    RelaxedDate "2025-1-5" :=
  ⟨by decide, (parse_date_utc_amended "2025-11-05").2 (by decide),
   (parse_date_utc_amended "2025-1-5").1.mp ⟨⟨2025, 1, 5⟩, by decide⟩⟩

/-! ## Path-safety lemmas for the filename deriver -/

/-- No part of a split contains the separator. -/
theorem splitChar_parts_no_sep (sep : Char) (cs : List Char) :
    ∀ p ∈ splitChar sep cs, sep ∉ p := by
  induction cs with
  | nil =>
    intro p hp
    rw [List.mem_singleton.mp hp]
    exact List.not_mem_nil sep
  | cons c cs ih =>
    intro p hp
    simp only [splitChar] at hp
    by_cases hc : c = sep
    · rw [if_pos hc] at hp
      rcases List.mem_cons.mp hp with h1 | h1
      · rw [h1]; exact List.not_mem_nil sep
      · exact ih p h1
    · rw [if_neg hc] at hp
      rcases h : splitChar sep cs with _ | ⟨q, qs⟩
      · exact absurd h (splitChar_ne_nil sep cs)
      · rw [h] at hp
        simp only [consPart] at hp
        rcases List.mem_cons.mp hp with h1 | h1
        · rw [h1]
          intro hmem
          rcases List.mem_cons.mp hmem with h2 | h2
          · exact hc h2.symm
          · exact ih q (h ▸ List.mem_cons_self q qs) h2
        · exact ih p (h ▸ List.mem_cons_of_mem q h1)

/-- The final path component contains no separator. -/
theorem posixNameChars_no_slash (s : String) : '/' ∉ posixNameChars s := by
  unfold posixNameChars
  rcases hl : (((splitChar '/' s.data).filter
      (fun p => p ≠ [] ∧ p ≠ ['.'])).getLast?) with _ | p
  · exact List.not_mem_nil '/'
  · have hp : p ∈ (splitChar '/' s.data).filter (fun p => p ≠ [] ∧ p ≠ ['.']) :=
      List.mem_of_mem_getLast? hl
    exact splitChar_parts_no_sep '/' s.data p (List.mem_of_mem_filter hp)

/-- `lastDotIdx` points at a dot. -/
theorem lastDotIdx_drop (cs : List Char) (i : Nat)
    (h : lastDotIdx cs = some i) : ∃ tl, cs.drop i = '.' :: tl := by
  induction cs generalizing i with
  | nil => simp [lastDotIdx] at h
  | cons c cs ih =>
    unfold lastDotIdx at h
    rcases hj : lastDotIdx cs with _ | j
    · rw [hj] at h
      dsimp only at h
      split at h
      · next hc =>
        cases h
        exact ⟨cs, by simp [hc]⟩
      · simp at h
    · rw [hj] at h
      dsimp only at h
      cases h
      exact ih j hj

/-- The suffix contains no separator. -/
theorem pySuffix_no_slash (s : String) : '/' ∉ (pySuffix s).data := by
  unfold pySuffix
  dsimp only
  rcases h : lastDotIdx (posixNameChars s) with _ | i <;> dsimp only
  · exact List.not_mem_nil '/'
  · split
    · intro hm
      exact posixNameChars_no_slash s
        (List.drop_subset i (posixNameChars s) hm)
    · exact List.not_mem_nil '/'

/-- The suffix is empty or dot-initial. -/
theorem pySuffix_shape (s : String) :
    (pySuffix s).data = [] ∨ ∃ tl, (pySuffix s).data = '.' :: tl := by
  unfold pySuffix
  dsimp only
  rcases h : lastDotIdx (posixNameChars s) with _ | i <;> dsimp only
  · exact Or.inl rfl
  · split
    · exact Or.inr (lastDotIdx_drop (posixNameChars s) i h)
    · exact Or.inl rfl

/-- ASCII lower-casing maps no other character to the separator. -/
theorem lowerChar_ne_slash (c : Char) (h : c ≠ '/') : lowerChar c ≠ '/' := by
  intro heq
  unfold lowerChar at heq
  split at heq <;> first
    | exact absurd heq (by decide)
    | exact h heq

/-! ## Hex-digest lemmas -/

/-- Every digest byte is below 256. -/
theorem wordBytes_lt (w : Nat) : ∀ b ∈ wordBytes w, b < 256 := by
  intro b hb
  simp only [wordBytes, List.mem_cons, List.not_mem_nil, or_false] at hb
  rcases hb with h | h | h | h <;> subst h <;> omega

/-- Every byte of a SHA-256 digest is below 256. -/
theorem sha256Bytes_lt (msg : List Nat) :
    ∀ b ∈ sha256Bytes msg, b < 256 := by
  intro b hb
  simp only [sha256Bytes, List.mem_append] at hb
  rcases hb with ((((((h | h) | h) | h) | h) | h) | h) | h <;>
    exact wordBytes_lt _ b h

/-- A SHA-256 digest is 32 bytes. -/
theorem sha256Bytes_length (msg : List Nat) :
    (sha256Bytes msg).length = 32 := by
  simp [sha256Bytes, wordBytes]

/-- Hex digits of values below 16 are lower-case hex characters. -/
theorem hexDigitChar_props (n : Nat) (h : n < 16) :
    isLowerHexChar (hexDigitChar n) = true := by
  interval_cases n <;> decide

/-- Every character of a hex rendering of bytes is lower-case hex. -/
theorem bytesToHexChars_props (bs : List Nat) (hb : ∀ b ∈ bs, b < 256) :
    ∀ c ∈ bytesToHexChars bs, isLowerHexChar c = true := by
  intro c hc
  simp only [bytesToHexChars, List.mem_flatMap, List.mem_cons,
    List.not_mem_nil, or_false] at hc
  obtain ⟨b, hbm, hcm⟩ := hc
  have hblt := hb b hbm
  rcases hcm with h | h <;> subst h <;> exact hexDigitChar_props _ (by omega)

/-- A hex rendering has two characters per byte. -/
theorem bytesToHexChars_length (bs : List Nat) :
    (bytesToHexChars bs).length = 2 * bs.length := by
  induction bs with
  | nil => rfl
  | cons b bs ih =>
    simp only [bytesToHexChars, List.flatMap_cons, List.length_append,
      List.length_cons, List.length_nil] at ih ⊢
    omega

/-- The hex digest of any string has 64 characters. -/
theorem sha256HexChars_length (s : String) :
    (sha256HexChars s).length = 64 := by
  unfold sha256HexChars
  rw [bytesToHexChars_length, sha256Bytes_length]

/-- Every character of the hex digest is lower-case hex. -/
theorem sha256HexChars_hex (s : String) :
    ∀ c ∈ sha256HexChars s, isLowerHexChar c = true :=
  bytesToHexChars_props _ (sha256Bytes_lt _)

/-! ## C10 — derived filenames are safe single path components -/

/-- **C10.** Every output of `compute_filename` is 16 lower-case hex
characters followed by exactly the original name's lower-cased
`pathlib` suffix (which is empty or dot-initial, taken from the final
path component); in particular the output contains no `/`, is nonempty,
and is neither `.` nor `..`, so joining it under the download directory
stays inside that directory. -/
theorem filename_stays_inside :
    ∀ (author_id : Nat) (created_at : Int) (attachment_id : Nat)
      (original_name : String),
      ((compute_filename author_id created_at attachment_id
          original_name).data.take 16).length = 16 ∧
      (∀ c ∈ (compute_filename author_id created_at attachment_id
          original_name).data.take 16, isLowerHexChar c = true) ∧
      (compute_filename author_id created_at attachment_id
          original_name).data.drop 16 =
        (pyLower (pySuffix original_name)).data ∧
      ((pyLower (pySuffix original_name)).data = [] ∨
        ∃ tl, (pyLower (pySuffix original_name)).data = '.' :: tl) ∧
      staysInside (compute_filename author_id created_at attachment_id
        original_name) := by
  intro a t i nm
  have h16 : ((sha256HexChars (toString a ++ "-" ++ toString i ++ "-" ++
      isoUtc t)).take 16).length = 16 := by
    rw [List.length_take, sha256HexChars_length]
    omega
  have hdata : (compute_filename a t i nm).data =
      (sha256HexChars (toString a ++ "-" ++ toString i ++ "-" ++
        isoUtc t)).take 16 ++ (pyLower (pySuffix nm)).data := by
    unfold compute_filename
    by_cases h : pyLower (pySuffix nm) = ""
    · rw [if_pos h, h]
      simp
    · rw [if_neg h, String.data_append]
  have htake : (compute_filename a t i nm).data.take 16 =
      (sha256HexChars (toString a ++ "-" ++ toString i ++ "-" ++
        isoUtc t)).take 16 := by
    rw [hdata, List.take_left' h16]
  have hdrop : (compute_filename a t i nm).data.drop 16 =
      (pyLower (pySuffix nm)).data := by
    rw [hdata, List.drop_left' h16]
  have hhex : ∀ c ∈ (compute_filename a t i nm).data.take 16,
      isLowerHexChar c = true := by
    intro c hc
    rw [htake] at hc
    exact sha256HexChars_hex _ c (List.take_subset 16 _ hc)
  have hshape : (pyLower (pySuffix nm)).data = [] ∨
      ∃ tl, (pyLower (pySuffix nm)).data = '.' :: tl := by
    rcases pySuffix_shape nm with h | ⟨tl, h⟩
    · left
      show ((pySuffix nm).data.map lowerChar) = []
      rw [h]
      rfl
    · right
      exact ⟨tl.map lowerChar, by
        show ((pySuffix nm).data.map lowerChar) = '.' :: tl.map lowerChar
        rw [h, List.map_cons, show lowerChar '.' = '.' from by decide]⟩
  have hnoslash : '/' ∉ (compute_filename a t i nm).data := by
    rw [hdata]
    intro hmem
    rcases List.mem_append.mp hmem with h | h
    · exact absurd (sha256HexChars_hex _ _ (List.take_subset 16 _ h))
        (by decide)
    · obtain ⟨c, hcm, hlc⟩ := List.mem_map.mp h
      exact lowerChar_ne_slash c
        (fun hceq => pySuffix_no_slash nm (hceq ▸ hcm)) hlc
  have hlong : 16 ≤ (compute_filename a t i nm).data.length := by
    rw [hdata, List.length_append, h16]
    omega
  refine ⟨by rw [htake]; exact h16, hhex, hdrop, hshape, ?_, ?_, ?_, hnoslash⟩
  · intro h
    rw [h, show ("" : String).data.length = 0 from by decide] at hlong
    omega
  · intro h
    rw [h, show ("." : String).data.length = 1 from by decide] at hlong
    omega
  · intro h
    rw [h, show (".." : String).data.length = 2 from by decide] at hlong
    omega

/-- Closed instance of `filename_stays_inside`: even a traversal-shaped
original name yields a safe single component. -/
theorem filename_stays_inside_witness :
    staysInside (compute_filename 1 0 2 "a/../E VIL.PnG") :=
  (filename_stays_inside 1 0 2 "a/../E VIL.PnG").2.2.2.2

/-! ## Driver normalization: a channel scan is a fold over its eligible
pairs -/

/-- A non-media attachment leaves the state untouched. -/
theorem procAtt_nonmedia (g ch : Nat) (m : Msg) (s : RunState) (a : Att)
    (h : is_media a = false) : processAttachment g ch m s a = s := by
  unfold processAttachment
  rw [if_pos h]

/-- The per-attachment step neither reads nor writes the message
counter. -/
theorem procAtt_seen (g ch : Nat) (m : Msg) (k : Nat) (s : RunState)
    (a : Att) :
    processAttachment g ch m {s with seen := k} a =
      {processAttachment g ch m s a with seen := k} := by
  unfold processAttachment
  dsimp only
  by_cases h1 : is_media a = false
  · rw [if_pos h1, if_pos h1]
  · rw [if_neg h1, if_neg h1]
    by_cases h2 : db_has_attachment s.db a.id = true
    · rw [if_pos h2, if_pos h2]
    · rw [if_neg h2, if_neg h2]
      by_cases h3 : s.disk.contains (destName m a) = true
      · rw [if_pos h3, if_pos h3]
      · rw [if_neg h3, if_neg h3]
        by_cases h4 : a.saveOk = true
        · rw [if_pos h4, if_pos h4]
        · rw [if_neg h4, if_neg h4]

/-- Folding the per-attachment step skips the non-media attachments. -/
theorem foldl_media_filter (g ch : Nat) (m : Msg) (atts : List Att) :
    ∀ s : RunState,
      atts.foldl (fun st a => processAttachment g ch m st a) s =
        (atts.filter (fun a => is_media a)).foldl
          (fun st a => processAttachment g ch m st a) s := by
  induction atts with
  | nil => intro s; rfl
  | cons a atts ih =>
    intro s
    by_cases h : is_media a = true
    · rw [List.foldl_cons, List.filter_cons, if_pos h, List.foldl_cons]
      exact ih _
    · have h' : is_media a = false := by
        revert h; cases is_media a <;> simp
      rw [List.foldl_cons, procAtt_nonmedia g ch m s a h',
        List.filter_cons, if_neg (by simp [h'])]
      exact ih s

/-- `processPairs` distributes over list append. -/
theorem processPairs_append (g ch : Nat) (s : RunState)
    (ps qs : List (Msg × Att)) :
    processPairs g ch s (ps ++ qs) =
      processPairs g ch (processPairs g ch s ps) qs :=
  List.foldl_append _ _ _ _

/-- `processPairs` neither reads nor writes the message counter. -/
theorem processPairs_seen (g ch : Nat) (k : Nat) :
    ∀ (ps : List (Msg × Att)) (s : RunState),
      processPairs g ch {s with seen := k} ps =
        {processPairs g ch s ps with seen := k} := by
  intro ps
  induction ps with
  | nil => intro s; rfl
  | cons pr ps ih =>
    intro s
    show processPairs g ch (processAttachment g ch pr.1 {s with seen := k}
      pr.2) ps = _
    rw [procAtt_seen]
    exact ih _

/-- An attachment-less message contributes no pairs. -/
theorem msgPairs_no_atts (w : Window) (m : Msg)
    (h : m.attachments.isEmpty = true) : msgPairs w m = [] := by
  unfold msgPairs
  rw [List.isEmpty_iff.mp h]
  split <;> rfl

/-- A message outside the window contributes no pairs. -/
theorem msgPairs_outside (w : Window) (m : Msg)
    (h : boundaryCheck w m.createdAt = false) : msgPairs w m = [] := by
  unfold msgPairs
  rw [if_neg (by simp [h])]

/-- A message inside the window contributes its media attachments. -/
theorem msgPairs_inside (w : Window) (m : Msg)
    (h : boundaryCheck w m.createdAt = true) :
    msgPairs w m =
      (m.attachments.filter (fun a => is_media a)).map (fun a => (m, a)) := by
  unfold msgPairs
  rw [if_pos h]

/-- Every eligible pair is a media attachment. -/
theorem eligible_media (w : Window) (msgs : List Msg) :
    ∀ pr ∈ eligiblePairs w msgs, is_media pr.2 = true := by
  intro pr hpr
  simp only [eligiblePairs, List.mem_flatMap] at hpr
  obtain ⟨m, _, hpr'⟩ := hpr
  unfold msgPairs at hpr'
  split at hpr'
  · obtain ⟨a, ha, heq⟩ := List.mem_map.mp hpr'
    rw [← heq]
    exact (List.mem_filter.mp ha).2
  · simp at hpr'

/-- One channel scan equals the fold over its eligible pairs, with the
message counter advanced by the number of messages. -/
theorem run_eq_pairs (g ch : Nat) (w : Window) (msgs : List Msg) :
    ∀ s : RunState,
      runMessages g ch w msgs s =
        {processPairs g ch s (eligiblePairs w msgs) with
          seen := s.seen + msgs.length} := by
  induction msgs with
  | nil => intro s; rfl
  | cons m msgs ih =>
    intro s
    have hcons : eligiblePairs w (m :: msgs) =
        msgPairs w m ++ eligiblePairs w msgs := List.flatMap_cons m msgs _
    show runMessages g ch w msgs (processMessage g ch w s m) = _
    rw [ih, hcons, processPairs_append]
    by_cases hemp : m.attachments.isEmpty = true
    · rw [msgPairs_no_atts w m hemp]
      have hpm : processMessage g ch w s m = {s with seen := s.seen + 1} := by
        unfold processMessage
        rw [if_pos hemp]
      rw [hpm, processPairs_seen]
      show RunState.mk _ _ _ (s.seen + 1 + msgs.length) _ _ = _
      rw [show s.seen + 1 + msgs.length = s.seen + (msgs.length + 1) from by
        omega]
      rfl
    · by_cases hbc : boundaryCheck w m.createdAt = false
      · rw [msgPairs_outside w m hbc]
        have hpm : processMessage g ch w s m = {s with seen := s.seen + 1} := by
          unfold processMessage
          rw [if_neg hemp, if_pos hbc]
        rw [hpm, processPairs_seen]
        show RunState.mk _ _ _ (s.seen + 1 + msgs.length) _ _ = _
        rw [show s.seen + 1 + msgs.length = s.seen + (msgs.length + 1) from by
          omega]
        rfl
      · have hbc' : boundaryCheck w m.createdAt = true := by
          revert hbc; cases boundaryCheck w m.createdAt <;> simp
        have hpm : processMessage g ch w s m =
            processPairs g ch {s with seen := s.seen + 1} (msgPairs w m) := by
          unfold processMessage
          rw [if_neg hemp, if_neg (by simp [hbc'])]
          rw [foldl_media_filter g ch m m.attachments,
            msgPairs_inside w m hbc']
          exact (List.foldl_map (fun a => (m, a))
            (fun st pr => processAttachment g ch pr.1 st pr.2)
            (m.attachments.filter (fun a => is_media a))
            {s with seen := s.seen + 1}).symm
        rw [hpm]
        dsimp only
        rw [processPairs_seen g ch (s.seen + 1) (msgPairs w m) s,
          processPairs_seen g ch (s.seen + 1) (eligiblePairs w msgs)
            (processPairs g ch s (msgPairs w m))]
        dsimp only
        rw [show s.seen + 1 + msgs.length = s.seen + (msgs.length + 1) from by
          omega]
        rfl

/-! ## Run characterizations over an explicit pair list -/

/-- When every pair's key is already in the manifest, a scan only counts
skips: one per pair, nothing else changes. -/
theorem processPairs_all_present (g ch : Nat) :
    ∀ (ps : List (Msg × Att)) (s : RunState),
      (∀ pr ∈ ps, is_media pr.2 = true) →
      (∀ pr ∈ ps, db_has_attachment s.db pr.2.id = true) →
      processPairs g ch s ps = {s with skipped := s.skipped + ps.length} := by
  intro ps
  induction ps with
  | nil => intro s _ _; rfl
  | cons pr ps ih =>
    intro s hmedia hdb
    have hmem := List.mem_cons_self pr ps
    have hstep : processAttachment g ch pr.1 s pr.2 =
        {s with skipped := s.skipped + 1} := by
      unfold processAttachment
      rw [if_neg (by simp [hmedia pr hmem]), if_pos (hdb pr hmem)]
    show processPairs g ch (processAttachment g ch pr.1 s pr.2) ps = _
    rw [hstep, ih {s with skipped := s.skipped + 1}
      (fun pr' h' => hmedia pr' (List.mem_cons_of_mem pr h'))
      (fun pr' h' => hdb pr' (List.mem_cons_of_mem pr h'))]
    dsimp only
    rw [show s.skipped + 1 + ps.length = s.skipped + (ps.length + 1) from by
      omega]
    rfl

/-- When every pair is fresh — its key not in the manifest, its
destination not on disk, keys and destinations pairwise distinct, every
save succeeding — a scan downloads each pair once: it fetches and
writes each destination, appends one manifest row per pair, counts one
download per pair, and skips nothing. -/
theorem processPairs_all_fresh (g ch : Nat) :
    ∀ (ps : List (Msg × Att)) (s : RunState),
      (∀ pr ∈ ps, is_media pr.2 = true) →
      (∀ pr ∈ ps, pr.2.saveOk = true) →
      (∀ pr ∈ ps, pairKey pr ∉ dbKeys s.db) →
      (∀ pr ∈ ps, pairDest pr ∉ s.disk) →
      ps.Pairwise (fun p q => pairKey p ≠ pairKey q) →
      ps.Pairwise (fun p q => pairDest p ≠ pairDest q) →
      processPairs g ch s ps =
        {s with
          db := s.db ++ ps.map (pairRecord g ch),
          disk := s.disk ++ ps.map pairDest,
          saves := s.saves ++ ps.map pairDest,
          downloaded := s.downloaded + ps.length} := by
  intro ps
  induction ps with
  | nil =>
    intro s _ _ _ _ _ _
    show s = _
    cases s
    simp
  | cons pr ps ih =>
    intro s hm hs hk hd hpk hpd
    have hmem := List.mem_cons_self pr ps
    have hkey : db_has_attachment s.db pr.2.id = false := by
      rcases hcase : db_has_attachment s.db pr.2.id
      · rfl
      · exact absurd ((db_has_attachment_iff _ _).mp hcase) (hk pr hmem)
    have hdisk : s.disk.contains (destName pr.1 pr.2) = false := by
      rcases hcase : s.disk.contains (destName pr.1 pr.2)
      · rfl
      · exact absurd (by simpa [List.contains, List.elem_iff] using hcase)
          (hd pr hmem)
    have hstep : processAttachment g ch pr.1 s pr.2 =
        {s with
          saves := s.saves ++ [pairDest pr],
          disk := s.disk ++ [pairDest pr],
          db := s.db ++ [pairRecord g ch pr],
          downloaded := s.downloaded + 1} := by
      unfold processAttachment
      rw [if_neg (by simp [hm pr hmem]), if_neg (by simp [hkey]),
        if_neg (by rw [hdisk]; simp), if_pos (hs pr hmem),
        db_insert_of_fresh s.db pr.2.id pr.1.id ch g pr.2.url
          (destName pr.1 pr.2) pr.1.createdAt hkey]
      rfl
    have hk' : ∀ pr' ∈ ps,
        pairKey pr' ∉ dbKeys (s.db ++ [pairRecord g ch pr]) := by
      intro pr' h' hmem'
      rw [dbKeys, List.map_append] at hmem'
      rcases List.mem_append.mp hmem' with h1 | h1
      · exact hk pr' (List.mem_cons_of_mem pr h') h1
      · have : pairKey pr' = pairKey pr := by
          simpa [pairRecord, pairKey] using List.mem_singleton.mp h1
        exact (List.pairwise_cons.mp hpk).1 pr' h' this.symm
    have hd' : ∀ pr' ∈ ps, pairDest pr' ∉ s.disk ++ [pairDest pr] := by
      intro pr' h' hmem'
      rcases List.mem_append.mp hmem' with h1 | h1
      · exact hd pr' (List.mem_cons_of_mem pr h') h1
      · exact (List.pairwise_cons.mp hpd).1 pr' h'
          (List.mem_singleton.mp h1).symm
    show processPairs g ch (processAttachment g ch pr.1 s pr.2) ps = _
    rw [hstep, ih _
      (fun pr' h' => hm pr' (List.mem_cons_of_mem pr h'))
      (fun pr' h' => hs pr' (List.mem_cons_of_mem pr h'))
      hk' hd' (List.pairwise_cons.mp hpk).2 (List.pairwise_cons.mp hpd).2]
    dsimp only
    simp only [List.map_cons, List.length_cons, List.append_assoc,
      List.singleton_append, RunState.mk.injEq, and_true, true_and]
    omega

/-! ## C1 — a second run over an unchanged history downloads nothing -/

/-- **C1.** Over an unchanged message history, starting from a fresh
deployment (empty manifest and empty download directory), with every
eligible attachment carrying a distinct id and a distinct derived
destination and every save succeeding, the first run handles every
eligible attachment; a second run over the same history with the
resulting manifest and directory (and fresh counters) attempts no fetch
at all, newly downloads zero files, and its skipped counter equals the
first run's downloaded counter. -/
theorem second_run_downloads_nothing :
    ∀ (guildId chId : Nat) (w : Window) (msgs : List Msg),
      (eligiblePairs w msgs).Pairwise (fun p q => pairKey p ≠ pairKey q) →
      (eligiblePairs w msgs).Pairwise (fun p q => pairDest p ≠ pairDest q) →
      (∀ pr ∈ eligiblePairs w msgs, pr.2.saveOk = true) →
      ∀ s1 s2 : RunState,
        s1 = runMessages guildId chId w msgs initialState →
        s2 = runMessages guildId chId w msgs ⟨s1.db, s1.disk, [], 0, 0, 0⟩ →
        s1.downloaded = (eligiblePairs w msgs).length ∧ s1.skipped = 0 ∧
        s2.downloaded = 0 ∧ s2.skipped = s1.downloaded ∧
        s2.saves = [] ∧ s2.db = s1.db ∧ s2.disk = s1.disk := by
  intro g ch w msgs hpk hpd hsave s1 s2 hs1 hs2
  have hmedia := eligible_media w msgs
  have h1 : s1 = {initialState with
      db := (eligiblePairs w msgs).map (pairRecord g ch),
      disk := (eligiblePairs w msgs).map pairDest,
      saves := (eligiblePairs w msgs).map pairDest,
      downloaded := (eligiblePairs w msgs).length,
      seen := msgs.length} := by
    rw [hs1, run_eq_pairs, processPairs_all_fresh g ch _ initialState hmedia
      hsave (fun pr _ h => List.not_mem_nil _ h)
      (fun pr _ h => List.not_mem_nil _ h) hpk hpd]
    simp [initialState]
  have hdb1 : s1.db = (eligiblePairs w msgs).map (pairRecord g ch) := by
    rw [h1]
  have hdisk1 : s1.disk = (eligiblePairs w msgs).map pairDest := by
    rw [h1]
  have hdl1 : s1.downloaded = (eligiblePairs w msgs).length := by
    rw [h1]
  have hsk1 : s1.skipped = 0 := by rw [h1]; rfl
  have hpresent : ∀ pr ∈ eligiblePairs w msgs,
      db_has_attachment s1.db pr.2.id = true := by
    intro pr hpr
    rw [db_has_attachment_iff, hdb1, dbKeys, List.map_map]
    exact List.mem_map_of_mem (fun x => (pairRecord g ch x).attachment_id) hpr
  have h2 : s2 = {(⟨s1.db, s1.disk, [], 0, 0, 0⟩ : RunState) with
      skipped := (eligiblePairs w msgs).length,
      seen := msgs.length} := by
    rw [hs2, run_eq_pairs, processPairs_all_present g ch
      (eligiblePairs w msgs) ⟨s1.db, s1.disk, [], 0, 0, 0⟩
      hmedia hpresent]
    simp
  exact ⟨hdl1, hsk1, by rw [h2], by rw [h2, hdl1], by rw [h2], by rw [h2],
    by rw [h2]⟩

/-- Closed instance of `second_run_downloads_nothing`: one in-window
message with one media attachment is downloaded on the first run and
only skipped on the second. -/
theorem second_run_downloads_nothing_witness :
    (eligiblePairs ⟨0, 10, -1000000, 1000010⟩
        [⟨5, 6, 3, [⟨7, "p.png", "u", some "image/png", true⟩]⟩]).Pairwise
      (fun p q => pairKey p ≠ pairKey q) ∧
    (runMessages 1 2 ⟨0, 10, -1000000, 1000010⟩
        [⟨5, 6, 3, [⟨7, "p.png", "u", some "image/png", true⟩]⟩]
        initialState).skipped = 0 ∧
    (runMessages 1 2 ⟨0, 10, -1000000, 1000010⟩
        [⟨5, 6, 3, [⟨7, "p.png", "u", some "image/png", true⟩]⟩]
        ⟨(runMessages 1 2 ⟨0, 10, -1000000, 1000010⟩
            [⟨5, 6, 3, [⟨7, "p.png", "u", some "image/png", true⟩]⟩]
            initialState).db,
          (runMessages 1 2 ⟨0, 10, -1000000, 1000010⟩
            [⟨5, 6, 3, [⟨7, "p.png", "u", some "image/png", true⟩]⟩]
            initialState).disk, [], 0, 0, 0⟩).downloaded = 0 ∧
    (runMessages 1 2 ⟨0, 10, -1000000, 1000010⟩
        [⟨5, 6, 3, [⟨7, "p.png", "u", some "image/png", true⟩]⟩]
        ⟨(runMessages 1 2 ⟨0, 10, -1000000, 1000010⟩
            [⟨5, 6, 3, [⟨7, "p.png", "u", some "image/png", true⟩]⟩]
            initialState).db,
          (runMessages 1 2 ⟨0, 10, -1000000, 1000010⟩
            [⟨5, 6, 3, [⟨7, "p.png", "u", some "image/png", true⟩]⟩]
            initialState).disk, [], 0, 0, 0⟩).skipped =
      (runMessages 1 2 ⟨0, 10, -1000000, 1000010⟩
        [⟨5, 6, 3, [⟨7, "p.png", "u", some "image/png", true⟩]⟩]
        initialState).downloaded := by
  have hel : eligiblePairs ⟨0, 10, -1000000, 1000010⟩
      [⟨5, 6, 3, [⟨7, "p.png", "u", some "image/png", true⟩]⟩] =
      [(⟨5, 6, 3, [⟨7, "p.png", "u", some "image/png", true⟩]⟩,
        ⟨7, "p.png", "u", some "image/png", true⟩)] := by decide
  have hpk : (eligiblePairs ⟨0, 10, -1000000, 1000010⟩
      [⟨5, 6, 3, [⟨7, "p.png", "u", some "image/png", true⟩]⟩]).Pairwise
      (fun p q => pairKey p ≠ pairKey q) := by
    rw [hel]; exact List.pairwise_singleton _ _
  have hpd : (eligiblePairs ⟨0, 10, -1000000, 1000010⟩
      [⟨5, 6, 3, [⟨7, "p.png", "u", some "image/png", true⟩]⟩]).Pairwise
      (fun p q => pairDest p ≠ pairDest q) := by
    rw [hel]; exact List.pairwise_singleton _ _
  have hsv : ∀ pr ∈ eligiblePairs ⟨0, 10, -1000000, 1000010⟩
      [⟨5, 6, 3, [⟨7, "p.png", "u", some "image/png", true⟩]⟩],
      pr.2.saveOk = true := by
    rw [hel]
    intro pr hpr
    rw [List.mem_singleton.mp hpr]
  have h := second_run_downloads_nothing 1 2 ⟨0, 10, -1000000, 1000010⟩
    [⟨5, 6, 3, [⟨7, "p.png", "u", some "image/png", true⟩]⟩] hpk hpd hsv
    _ _ rfl rfl
  exact ⟨hpk, h.2.1, h.2.2.1, h.2.2.2.1⟩

end DiscordMedia
